import Mathlib

/-!
Verification of the sound-bank encoder `make_bnk.py`.

Strings from the Python program are embedded as lists of Unicode code points
(`List Nat`); lower/upper casing is modelled character-wise on the ASCII
letter ranges, which is exact for the ASCII inputs the tool works with.
The file system is a parameter: a function mapping a wem file name to the
byte content of that file.  Machine integers are `Nat` with explicit
`% 2 ^ 32` where the source masks with `0xFFFFFFFF`.
-/

namespace MakeBnk

/-- Character-wise lower casing, as Python `str.lower` acts on ASCII letters. -/
def pyLower (c : Nat) : Nat := if 65 ≤ c ∧ c ≤ 90 then c + 32 else c

/-- Character-wise upper casing, as Python `str.upper` acts on ASCII letters. -/
def pyUpper (c : Nat) : Nat := if 97 ≤ c ∧ c ≤ 122 then c - 32 else c

/-- Model of `name.lower()` (make_bnk.py line 38). -/
def lowerStr (s : List Nat) : List Nat := s.map pyLower

/-- Model of `str.upper()` (make_bnk.py line 76). -/
def upperStr (s : List Nat) : List Nat := s.map pyUpper

/-- One accumulation step of the hash loop (make_bnk.py line 40):
`hash = ((hash * 16777619) ^ ord(c)) & 0xFFFFFFFF`. -/
def fnvStep (h c : Nat) : Nat := ((h * 16777619) ^^^ c) % 4294967296

/-- Function `compute_hash` (make_bnk.py lines 36-41): lower-case the name, then fold
the FNV-style step over its characters starting from 2166136261. -/
def compute_hash (name : List Nat) : Nat :=
  (lowerStr name).foldl fnvStep 2166136261

/-- Modelled from the spec (section 4.1 wording, for the refinement claim C1):
start with offset basis 2166136261 and, for each element of an
already lower-cased input, compute `accum = ((accum * 16777619) XOR byte) mod 2^32`. -/
def fnv1a32 (acc : Nat) : List Nat → Nat
  | [] => acc
  | c :: r => fnv1a32 (((acc * 16777619) ^^^ c) % 4294967296) r

/-! ### Stable sorting

Python `list.sort(key=...)` and `sorted(...)` are stable ascending sorts by
key.  They are modelled extensionally by a stable insertion sort: each
element is inserted after every already placed element whose key is not
greater, which reproduces the stable ascending order. -/

/-- Insert `a` into `l` before the first element with a strictly larger key
(hence after all elements with an equal key, preserving stability). -/
def insertByKey (key : α → Nat) (a : α) : List α → List α
  | [] => [a]
  | b :: l => if key a < key b then a :: b :: l else b :: insertByKey key a l

/-- Model of a stable ascending sort by `key`, processing elements left to
right (Python `sorted` / `list.sort(key=...)`). -/
def sortByKey (key : α → Nat) (l : List α) : List α :=
  l.foldl (fun acc a => insertByKey key a acc) []

/-! ### Python values and dictionaries

`media_file_lookup` is a Python dict whose keys are ints (hashes), but the
duplicate check at line 98 tests a *string* for membership.  To keep that
behaviour observable, dictionary keys are modelled as a sum of ints and
strings with Python equality (values of different types are never equal). -/

/-- A Python value used as a dictionary key: an int or a str. -/
inductive PyVal where
  | int : Nat → PyVal
  | str : List Nat → PyVal
deriving DecidableEq

/-- Python equality between dictionary keys: ints compare to ints, strings
to strings, and an int is never equal to a string. -/
def pyEq : PyVal → PyVal → Bool
  | .int a, .int b => a == b
  | .str a, .str b => a == b
  | _, _ => false

/-- Model of `k in dict`. -/
def dictContains (d : List (PyVal × β)) (k : PyVal) : Bool :=
  d.any (fun kv => pyEq kv.1 k)

/-- Model of `dict[k] = v`: replace the value at an equal key in place, or
append the binding (Python dicts keep insertion order). -/
def dictSet (d : List (PyVal × β)) (k : PyVal) (v : β) : List (PyVal × β) :=
  match d with
  | [] => [(k, v)]
  | kv :: r => if pyEq kv.1 k then (k, v) :: r else kv :: dictSet r k v

/-- Model of `dict[k]` for a key that is present (`dflt` is returned on the
provably unreachable missing-key path). -/
def dictGetD (d : List (PyVal × β)) (k : PyVal) (dflt : β) : β :=
  match d with
  | [] => dflt
  | kv :: r => if pyEq kv.1 k then kv.2 else dictGetD r k dflt

/-- The int payloads of the dictionary keys; all keys of
`media_file_lookup` are ints, so this models `list(dict.keys())`. -/
def keyInts (d : List (PyVal × β)) : List Nat :=
  d.filterMap (fun kv => match kv.1 with | .int n => some n | .str _ => none)

/-- The keys of the modelled dictionary, in insertion order. -/
def dictKeys (d : List (PyVal × β)) : List PyVal := d.map Prod.fst

/-! ### Data model records (make_bnk.py lines 17-34) -/

/-- Dataclass `MediaEntry` (lines 17-22): offset and size start at -1 and are filled
in while the DATA blob is written. -/
structure MediaEntry where
  hash : Nat
  wem_filename : List Nat
  offset : Int
  size : Int
deriving DecidableEq

/-- Dataclass `SoundEntry` (lines 24-28). -/
structure SoundEntry where
  hash : Nat
  wem_hash : Nat
  wem_type : List Nat
deriving DecidableEq

/-- Dataclass `EventEntry` (lines 30-34). -/
structure EventEntry where
  hash : Nat
  wem_filename : List Nat
  wem_type : List Nat
deriving DecidableEq

def defaultMediaEntry : MediaEntry := ⟨0, [], -1, -1⟩

/-- The code points of "SFX". -/
def strSFX : List Nat := [83, 70, 88]

/-- The code points of "BGM". -/
def strBGM : List Nat := [66, 71, 77]

/-! ### Reading the wem table (make_bnk.py lines 70-84) -/

/-- The ways the modelled program run can stop early: an uncaught
IndexError from `line_split[1]` on a line with fewer than two
tab-separated fields, or the exit(1) of the duplicate-path check. -/
inductive RunError where
  | indexError (lineIdx : Nat)
  | duplicateAsset (wem_filename : List Nat)
deriving DecidableEq

/-- Python whitespace stripped by `str.strip()`. -/
def isPySpace (c : Nat) : Bool :=
  c == 32 || c == 9 || c == 10 || c == 13 || c == 11 || c == 12

/-- Model of `line.strip()`. -/
def pyStrip (s : List Nat) : List Nat :=
  ((s.dropWhile isPySpace).reverse.dropWhile isPySpace).reverse

/-- Model of `str.split(TAB)` (code point 9): one more field than there
are tab characters, so the result is never empty. -/
def splitTab : List Nat → List (List Nat)
  | [] => [[]]
  | c :: rest =>
    match splitTab rest with
    | [] => [[]]
    | f :: fs => if c == 9 then [] :: f :: fs else (c :: f) :: fs

/-- The wem-table reading loop (lines 73-84): split each stripped line on
tabs; a line with fewer than two fields raises IndexError at
`line_split[1]`; field 0 is upper-cased and matched against SFX and BGM;
any other token only prints a message naming the line index (collected
here as a warning) and the loop continues. -/
def readTableAux (i : Nat) (sfx bgm : List (List Nat)) (warns : List Nat) :
    List (List Nat) → Except RunError (List (List Nat) × List (List Nat) × List Nat)
  | [] => .ok (sfx, bgm, warns)
  | line :: rest =>
    match splitTab (pyStrip line) with
    | [] => .error (.indexError i)
    | [_] => .error (.indexError i)
    | t :: p :: _ =>
      if upperStr t = strSFX then readTableAux (i + 1) (sfx ++ [p]) bgm warns rest
      else if upperStr t = strBGM then readTableAux (i + 1) sfx (bgm ++ [p]) warns rest
      else readTableAux (i + 1) sfx bgm (warns ++ [i]) rest

def readTable (lines : List (List Nat)) :
    Except RunError (List (List Nat) × List (List Nat) × List Nat) :=
  readTableAux 0 [] [] [] lines

/-! ### Building the media catalog (make_bnk.py lines 90-110) -/

/-- The loop at lines 97-107: for each stored wem, first run the duplicate
check `wem_filename in media_file_lookup` (a membership test of the *path
string* against the int-keyed dict), exiting on a hit; then insert a fresh
`MediaEntry` keyed by the int hash of the path. -/
def buildLookup : List (List Nat) → List (PyVal × MediaEntry) →
    Except RunError (List (PyVal × MediaEntry))
  | [], d => .ok d
  | name :: rest, d =>
    if dictContains d (.str name) then .error (.duplicateAsset name)
    else
      buildLookup rest
        (dictSet d (.int (compute_hash name))
          ⟨compute_hash name, name, -1, -1⟩)

/-! ### Byte-level serialization -/

/-- Model of `n.to_bytes(length = 4, byteorder = "little")` for `0 ≤ n < 2^32`. -/
def le32 (n : Nat) : List Nat :=
  [n % 256, n / 256 % 256, n / 65536 % 256, n / 16777216 % 256]

def tagBKHD : List Nat := [66, 75, 72, 68]
def tagDIDX : List Nat := [68, 73, 68, 88]
def tagDATA : List Nat := [68, 65, 84, 65]
def tagHIRC : List Nat := [72, 73, 82, 67]

/-- The body of the BKHD chunk (lines 116-121): version 140, bank-name
hash, language hash (hash of "SFX"), alignment 16, project id 11146 and
padding 0. -/
def bkhdBody (bnk_out : List Nat) : List Nat :=
  le32 140 ++ le32 (compute_hash bnk_out) ++ le32 (compute_hash strSFX) ++
    le32 16 ++ le32 11146 ++ le32 0

/-- The BKHD chunk (lines 114-121): tag, declared length 0x18, body. -/
def bkhdChunk (bnk_out : List Nat) : List Nat :=
  tagBKHD ++ le32 0x18 ++ bkhdBody bnk_out

/-! ### Writing the DATA blob (make_bnk.py lines 138-150) -/

/-- The padding the loop inserts when `wem_offset` is not 8-byte aligned:
the source writes `wem_offset % 8` zero bytes (line 143). -/
def padLen (off : Nat) : Nat := if off % 8 ≠ 0 then off % 8 else 0

/-- The DATA streaming loop (lines 139-150) over the hash-sorted catalog:
per entry it writes `padLen` zero bytes, then the bytes of the wem file,
and records the realized offset and size into the dict entry (the Python
code mutates the `MediaEntry` object in place; here the binding in the
dict is replaced by the updated record).  Returns the updated dict, the
bytes written into the DATA body, and the final `wem_offset`. -/
def dataLoop (wems : List Nat → List Nat) :
    List Nat → List (PyVal × MediaEntry) → Nat →
      List (PyVal × MediaEntry) × List Nat × Nat
  | [], lk, off => (lk, [], off)
  | h :: rest, lk, off =>
    let entry := dictGetD lk (.int h) defaultMediaEntry
    let pad := padLen off
    let content := wems entry.wem_filename
    let off1 := off + pad
    -- offset and size are the only fields the loop assigns
    let entry1 : MediaEntry := ⟨entry.hash, entry.wem_filename, off1, content.length⟩
    let res := dataLoop wems rest (dictSet lk (.int h) entry1) (off1 + content.length)
    (res.1, (List.replicate pad 0 ++ content) ++ res.2.1, res.2.2)

/-- One DIDX media header record (lines 159-163): id, uOffset, uSize. -/
def didxEntryBytes (e : MediaEntry) : List Nat :=
  le32 e.hash ++ le32 e.offset.toNat ++ le32 e.size.toNat

/-! ### HIRC hierarchy objects (make_bnk.py lines 168-528)

Each constructor carries exactly the fields of its record that vary
between emissions; `hircObjBytes` lays out the full fixed byte image of
the record as the source writes it. -/

inductive HircObj where
  | soundSfx (id wem_hash uSize parent : Nat)
  | soundBgm (id wem_hash uSize parent : Nat)
  | mixerSfx (id : Nat) (children : List Nat)
  | mixerBgm (id : Nat) (children : List Nat)
  | actionPlay (id idExt bankId : Nat)
  | actionStop1 (id : Nat)
  | actionStop2 (id : Nat)
  | eventSfx (id play : Nat)
  | eventBgm (id stop1 play stop2 : Nat)
deriving DecidableEq

/-- The serialized byte image of a hierarchy object, copied field by field
from the corresponding `bnk_file.write` calls. -/
def hircObjBytes : HircObj → List Nat
  | .soundSfx i wh us par =>
    [2] ++ le32 0x32 ++ le32 i ++ [1, 0, 2, 0, 0] ++ le32 wh ++ le32 us ++
      [0, 0, 0, 0, 0, 0] ++ le32 0 ++ le32 par ++
      [0, 0, 0, 0, 0, 0, 0, 0, 0, 0, 1, 1, 0, 0, 0, 0, 0, 0, 0]
  | .soundBgm i wh us par =>
    [2] ++ le32 0x37 ++ le32 i ++ [1, 0, 2, 0, 2] ++ le32 wh ++ le32 us ++
      [0, 0, 0, 0, 0, 0] ++ le32 0 ++ le32 par ++
      [0, 1, 0x3A, 0, 0, 0, 0, 0, 0, 0, 0, 0, 0, 0, 0, 1, 0, 0, 0, 0, 0, 0, 0, 0]
  | .mixerSfx i ch =>
    [7] ++ le32 (0x33 + ch.length * 4) ++ le32 i ++ [0, 0, 0, 0, 0] ++
      le32 1584861537 ++ le32 0 ++
      [0, 2, 0, 7, 0, 0, 0x20, 0x40, 0, 0, 0x70, 0x42, 0, 3, 8, 0,
        0, 0, 0, 0, 0, 1, 0, 0, 0, 0, 0, 0, 0, 0] ++
      le32 ch.length ++ ch.flatMap le32
  | .mixerBgm i ch =>
    [7] ++ le32 (0x2E + ch.length * 4) ++ le32 i ++ [0, 0, 0, 0, 0] ++
      le32 0 ++ le32 289663270 ++
      [0, 1, 0, 0, 0, 0x20, 0xC0, 0, 3, 8, 0,
        0, 0, 0, 0, 0, 1, 0, 0, 0, 0, 0, 0, 0, 0] ++
      le32 ch.length ++ ch.flatMap le32
  | .actionPlay i ext bank =>
    [3] ++ le32 0x12 ++ le32 i ++ [3, 4] ++ le32 ext ++ [0, 0, 0, 4] ++ le32 bank
  | .actionStop1 i =>
    [3] ++ le32 0x15 ++ le32 i ++ [2, 1] ++ le32 289663270 ++
      [0, 1, 0x10, 0xF4, 1, 0, 0, 0, 4, 6, 0]
  | .actionStop2 i =>
    [3] ++ le32 0x10 ++ le32 i ++ [2, 1] ++ le32 920168426 ++ [0, 0, 0, 4, 6, 0]
  | .eventSfx i p =>
    [4] ++ le32 0x09 ++ le32 i ++ [1] ++ le32 p
  | .eventBgm i s1 p s2 =>
    [4] ++ le32 0x11 ++ le32 i ++ [3] ++ le32 s1 ++ le32 p ++ le32 s2

def hircObjId : HircObj → Nat
  | .soundSfx i _ _ _ => i
  | .soundBgm i _ _ _ => i
  | .mixerSfx i _ => i
  | .mixerBgm i _ => i
  | .actionPlay i _ _ => i
  | .actionStop1 i => i
  | .actionStop2 i => i
  | .eventSfx i _ => i
  | .eventBgm i _ _ _ => i

def isEventObj : HircObj → Bool
  | .eventSfx _ _ => true
  | .eventBgm _ _ _ _ => true
  | _ => false

/-! ### Name suffixes used in the f-strings of make_bnk.py -/

/-- "_sound" -/
def sufSound : List Nat := [95, 115, 111, 117, 110, 100]
/-- "_play" -/
def sufPlay : List Nat := [95, 112, 108, 97, 121]
/-- "_play_event" -/
def sufPlayEvent : List Nat := [95, 112, 108, 97, 121, 95, 101, 118, 101, 110, 116]
/-- "_stop1" -/
def sufStop1 : List Nat := [95, 115, 116, 111, 112, 49]
/-- "_stop2" -/
def sufStop2 : List Nat := [95, 115, 116, 111, 112, 50]
/-- "_sfx_mix" -/
def sufSfxMix : List Nat := [95, 115, 102, 120, 95, 109, 105, 120]
/-- "_bgm_mix" -/
def sufBgmMix : List Nat := [95, 98, 103, 109, 95, 109, 105, 120]

/-! ### HIRC construction (make_bnk.py lines 168-528) -/

/-- Count `hirc_entry_count` (lines 172-177): one mixer per non-empty category,
1+2 objects per SFX wem, 1+4 objects per BGM wem. -/
def hirc_entry_count (sfx bgm : List (List Nat)) : Nat :=
  (if 0 < sfx.length then 1 else 0) +
  (if 0 < bgm.length then 1 else 0) +
  (1 + 2) * sfx.length +
  (1 + 4) * bgm.length

/-- List `sound_entry_list` (lines 181-196): one entry per SFX wem then one per
BGM wem, stably sorted by the hash of name ++ "_sound". -/
def sound_entry_list (sfx bgm : List (List Nat)) : List SoundEntry :=
  sortByKey SoundEntry.hash
    ((sfx.map fun n => ⟨compute_hash (n ++ sufSound), compute_hash n, strSFX⟩) ++
      (bgm.map fun n => ⟨compute_hash (n ++ sufSound), compute_hash n, strBGM⟩))

/-- List `mixer_order` (lines 199-203): the SFX and BGM mixer hashes, sorted. -/
def mixer_order (bnk_out : List Nat) : List (Nat × List Nat) :=
  sortByKey Prod.fst
    [(compute_hash (bnk_out ++ sufSfxMix), strSFX),
      (compute_hash (bnk_out ++ sufBgmMix), strBGM)]

/-- A CAkSound record for the SFX branch (lines 214-257): uSize is read
from the (by now mutated) media dict. -/
def sfxSoundObj (lk : List (PyVal × MediaEntry)) (mixer_hash : Nat)
    (se : SoundEntry) : HircObj :=
  .soundSfx se.hash se.wem_hash
    (dictGetD lk (.int se.wem_hash) defaultMediaEntry).size.toNat mixer_hash

/-- A CAkSound record for the BGM branch (lines 311-362): when the wem
hash is absent from the media dict (exclude_bgm), uSize is the
placeholder constant 1024 (line 324). -/
def bgmSoundObj (lk : List (PyVal × MediaEntry)) (mixer_hash : Nat)
    (se : SoundEntry) : HircObj :=
  .soundBgm se.hash se.wem_hash
    (if dictContains lk (.int se.wem_hash) then
      (dictGetD lk (.int se.wem_hash) defaultMediaEntry).size.toNat
    else 1024)
    mixer_hash

/-- One iteration of the mixer loop (lines 205-415): filter the sounds of
this mixer category; skip the mixer entirely when it has none; otherwise
emit its child sounds in hash order followed by the mixer record. -/
def mixerObjs (lk : List (PyVal × MediaEntry)) (sounds : List SoundEntry)
    (m : Nat × List Nat) : List HircObj :=
  let ms := sounds.filter fun se => se.wem_type == m.2
  if ms.length = 0 then []
  else if m.2 = strSFX then
    ms.map (sfxSoundObj lk m.1) ++ [.mixerSfx m.1 (ms.map SoundEntry.hash)]
  else
    ms.map (bgmSoundObj lk m.1) ++ [.mixerBgm m.1 (ms.map SoundEntry.hash)]

def hircMixerSection (bnk_out : List Nat) (lk : List (PyVal × MediaEntry))
    (sfx bgm : List (List Nat)) : List HircObj :=
  (mixer_order bnk_out).flatMap (mixerObjs lk (sound_entry_list sfx bgm))

/-- List `event_entry_list` (lines 418-433): one entry per SFX wem then one per
BGM wem, stably sorted by the hash of name ++ "_play_event". -/
def event_entry_list (sfx bgm : List (List Nat)) : List EventEntry :=
  sortByKey EventEntry.hash
    ((sfx.map fun n => ⟨compute_hash (n ++ sufPlayEvent), n, strSFX⟩) ++
      (bgm.map fun n => ⟨compute_hash (n ++ sufPlayEvent), n, strBGM⟩))

/-- The action and event records emitted for one event entry
(lines 435-528): an SFX event gets one Play action then its event record;
a BGM event gets Stop1, Play, Stop2 then its event record. -/
def eventObjs (bnk_out : List Nat) (e : EventEntry) : List HircObj :=
  if e.wem_type = strSFX then
    [.actionPlay (compute_hash (e.wem_filename ++ sufPlay))
        (compute_hash (e.wem_filename ++ sufSound)) (compute_hash bnk_out),
      .eventSfx e.hash (compute_hash (e.wem_filename ++ sufPlay))]
  else
    [.actionStop1 (compute_hash (e.wem_filename ++ sufStop1)),
      .actionPlay (compute_hash (e.wem_filename ++ sufPlay))
        (compute_hash (e.wem_filename ++ sufSound)) (compute_hash bnk_out),
      .actionStop2 (compute_hash (e.wem_filename ++ sufStop2)),
      .eventBgm e.hash (compute_hash (e.wem_filename ++ sufStop1))
        (compute_hash (e.wem_filename ++ sufPlay))
        (compute_hash (e.wem_filename ++ sufStop2))]

def hircEventSection (bnk_out : List Nat) (sfx bgm : List (List Nat)) : List HircObj :=
  (event_entry_list sfx bgm).flatMap (eventObjs bnk_out)

/-! ### The whole program run -/

/-- Everything the program computes and writes on a successful run.
`fileBytes` is the final content of the output file; the other fields
expose the intermediate values the write loops produced. -/
structure BnkOutput where
  sfx_wems : List (List Nat)
  bgm_wems : List (List Nat)
  warnings : List Nat
  bnkName : List Nat
  lookup : List (PyVal × MediaEntry)
  sortedHashes : List Nat
  didxRecs : List MediaEntry
  didxDeclared : Nat
  didxBody : List Nat
  dataBody : List Nat
  dataDeclared : Nat
  mixerSection : List HircObj
  eventSection : List HircObj
  hircCount : Nat
  hircDeclared : Nat
  hircBody : List Nat
  fileBytes : List Nat
deriving DecidableEq

/-- The full run of make_bnk.py on a wem table, modelling the file system
by `wems`, a map from wem file name to file bytes.  Errors abort the run
before the output file holds any bytes.  On success the seek-and-patch
writing of the source produces exactly the layout assembled here: BKHD,
then (only when the catalog is non-empty) DIDX and DATA, then HIRC whose
back-patched declared length is the end position minus the position just
after the length field. -/
def assembleOutput (bnk_out : List Nat) (wems : List Nat → List Nat)
    (sfx bgm : List (List Nat)) (warns : List Nat)
    (lk0 : List (PyVal × MediaEntry)) : BnkOutput :=
  let sortedHashes := sortByKey (fun h => h) (keyInts lk0)
  let dres := dataLoop wems sortedHashes lk0 0
  let lk := dres.1
  let didxRecs := sortedHashes.map fun h => dictGetD lk (.int h) defaultMediaEntry
  let didxBody := didxRecs.flatMap didxEntryBytes
  let mixerSec := hircMixerSection bnk_out lk sfx bgm
  let eventSec := hircEventSection bnk_out sfx bgm
  let count := hirc_entry_count sfx bgm
  let hircBody := le32 count ++ (mixerSec ++ eventSec).flatMap hircObjBytes
  let mid :=
    if 0 < lk0.length then
      tagDIDX ++ le32 (12 * lk0.length) ++ didxBody ++
        tagDATA ++ le32 dres.2.2 ++ dres.2.1
    else []
  let bkhd := bkhdChunk bnk_out
  -- HIRC_len_location = |bkhd ++ mid| + 4, HIRC_end_location = file length
  let hircDeclared :=
    ((bkhd ++ mid).length + 8 + hircBody.length) - ((bkhd ++ mid).length + 4) - 4
  { sfx_wems := sfx
    bgm_wems := bgm
    warnings := warns
    bnkName := bnk_out
    lookup := lk
    sortedHashes := sortedHashes
    didxRecs := didxRecs
    didxDeclared := 12 * lk0.length
    didxBody := didxBody
    dataBody := dres.2.1
    dataDeclared := dres.2.2
    mixerSection := mixerSec
    eventSection := eventSec
    hircCount := count
    hircDeclared := hircDeclared
    hircBody := hircBody
    fileBytes := bkhd ++ mid ++ tagHIRC ++ le32 hircDeclared ++ hircBody }

def makeBnk (exclude_bgm : Bool) (bnk_out : List Nat)
    (wems : List Nat → List Nat) (lines : List (List Nat)) :
    Except RunError BnkOutput :=
  match readTable lines with
  | .error e => .error e
  | .ok (sfx, bgm, warns) =>
    match buildLookup (if exclude_bgm then sfx else sfx ++ bgm) [] with
    | .error e => .error e
    | .ok lk0 => .ok (assembleOutput bnk_out wems sfx bgm warns lk0)

/-- Helper to name the output of a run that is known to succeed. -/
def getOk (r : Except RunError BnkOutput) (dflt : BnkOutput) : BnkOutput :=
  match r with
  | .ok o => o
  | .error _ => dflt

def emptyBnkOutput : BnkOutput :=
  ⟨[], [], [], [], [], [], [], 0, [], [], 0, [], [], 0, 0, [], []⟩

/-- The event record an event entry contributes (the last object of its
`eventObjs` block); used to state ordering facts about the HIRC event
area. -/
def eventRecordOf (e : EventEntry) : HircObj :=
  if e.wem_type = strSFX then
    .eventSfx e.hash (compute_hash (e.wem_filename ++ sufPlay))
  else
    .eventBgm e.hash (compute_hash (e.wem_filename ++ sufStop1))
      (compute_hash (e.wem_filename ++ sufPlay))
      (compute_hash (e.wem_filename ++ sufStop2))

/-! ### Concrete inputs used by witnesses and counterexamples.
Names are the code points of: output bank "out.bnk", wem paths "a", "b",
"foo.wem", "bar.wem"; the modelled file system gives file "b" five bytes
and file "a" three bytes. -/

def wemsW : List Nat → List Nat := fun n =>
  if n = [98] then [1, 2, 3, 4, 5] else if n = [97] then [7, 7, 7] else [9, 9]

def nmOut : List Nat := [111, 117, 116, 46, 98, 110, 107]

/-- "SFX TAB a" -/
def lineSfxA : List Nat := [83, 70, 88, 9, 97]

/-- "SFX TAB b" -/
def lineSfxB : List Nat := [83, 70, 88, 9, 98]

/-- "XYZ TAB foo" -/
def lineBadType : List Nat := [88, 89, 90, 9, 102, 111, 111]

/-- "SFX TAB foo.wem" -/
def lineSfxFoo : List Nat := [83, 70, 88, 9, 102, 111, 111, 46, 119, 101, 109]

/-- "BGM TAB bar.wem" -/
def lineBgmBar : List Nat := [66, 71, 77, 9, 98, 97, 114, 46, 119, 101, 109]

/-! ### Basic lemmas about the hash, the stable sort and the dictionaries -/

theorem foldl_fnvStep_eq_fnv1a32 (l : List Nat) (acc : Nat) :
    l.foldl fnvStep acc = fnv1a32 acc l := by
  induction l generalizing acc with
  | nil => rfl
  | cons c r ih => simp [List.foldl, fnv1a32, fnvStep, ih]

theorem pyLower_pyLower (c : Nat) : pyLower (pyLower c) = pyLower c := by
  unfold pyLower
  split
  · next h => rw [if_neg (by omega)]
  · rfl

theorem lowerStr_lowerStr (s : List Nat) : lowerStr (lowerStr s) = lowerStr s := by
  unfold lowerStr
  rw [List.map_map]
  exact List.map_congr_left fun c _ => pyLower_pyLower c

/-- C1: `compute_hash` is the 32-bit FNV-style accumulation (offset basis
2166136261, per element accum = ((accum * 16777619) XOR element) mod 2^32)
applied to the lower-cased form of the input; it is deterministic and
case-insensitive (any two strings with the same lower-cased form hash
equally, in particular "foo.wem" and "FOO.WEM"); the empty string is
accepted with result 2166136261; the known regression vector for
"foo.wem" is 2635936836. -/
theorem C1_compute_hash_fnv :
    (∀ s : List Nat, compute_hash s = fnv1a32 2166136261 (lowerStr s)) ∧
    (∀ s t : List Nat, lowerStr s = lowerStr t → compute_hash s = compute_hash t) ∧
    compute_hash [70, 79, 79, 46, 87, 69, 77] = compute_hash [102, 111, 111, 46, 119, 101, 109] ∧
    compute_hash [102, 111, 111, 46, 119, 101, 109] = 2635936836 ∧
    compute_hash [] = 2166136261 := by
  refine ⟨fun s => foldl_fnvStep_eq_fnv1a32 _ _, fun s t h => ?_, by decide, by decide, rfl⟩
  unfold compute_hash
  rw [h]

/-- Witness for C1 at a concrete casing pair: upper-cased and lower-cased
"foo.wem" have the same lower-cased form, hence the same hash. -/
theorem C1_compute_hash_fnv_witness :
    compute_hash [70, 79, 79, 46, 87, 69, 77] = compute_hash [102, 111, 111, 46, 119, 101, 109] :=
  C1_compute_hash_fnv.2.1 [70, 79, 79, 46, 87, 69, 77] [102, 111, 111, 46, 119, 101, 109] (by decide)

theorem insertByKey_perm (key : α → Nat) (a : α) (l : List α) :
    List.Perm (insertByKey key a l) (a :: l) := by
  induction l with
  | nil => exact List.Perm.refl _
  | cons b l ih =>
    unfold insertByKey
    split
    · exact List.Perm.refl _
    · exact (List.Perm.cons b ih).trans (List.Perm.swap a b l)

theorem foldl_insertByKey_perm (key : α → Nat) (l acc : List α) :
    List.Perm (l.foldl (fun acc a => insertByKey key a acc) acc) (acc ++ l) := by
  induction l generalizing acc with
  | nil => simp
  | cons a l ih =>
    have h1 : (a :: l).foldl (fun acc a => insertByKey key a acc) acc
        = l.foldl (fun acc a => insertByKey key a acc) (insertByKey key a acc) := rfl
    rw [h1]
    have h2 := (ih (insertByKey key a acc)).trans
      ((insertByKey_perm key a acc).append_right l)
    exact h2.trans (List.perm_middle).symm

theorem sortByKey_perm (key : α → Nat) (l : List α) : List.Perm (sortByKey key l) l :=
  foldl_insertByKey_perm key l []

theorem mem_sortByKey (key : α → Nat) (l : List α) (a : α) :
    a ∈ sortByKey key l ↔ a ∈ l :=
  (sortByKey_perm key l).mem_iff

theorem insertByKey_sorted (key : α → Nat) (a : α) (l : List α)
    (h : l.Pairwise (fun x y => key x ≤ key y)) :
    (insertByKey key a l).Pairwise (fun x y => key x ≤ key y) := by
  induction l with
  | nil => simp [insertByKey]
  | cons b l ih =>
    rcases List.pairwise_cons.mp h with ⟨hb, hl⟩
    unfold insertByKey
    split
    · next hab =>
      refine List.pairwise_cons.mpr ⟨?_, h⟩
      intro x hx
      rcases List.mem_cons.mp hx with rfl | hx
      · omega
      · exact le_trans (le_of_lt hab) (hb x hx)
    · next hab =>
      refine List.pairwise_cons.mpr ⟨?_, ih hl⟩
      intro x hx
      rcases List.mem_cons.mp ((insertByKey_perm key a l).mem_iff.mp hx) with rfl | hx
      · omega
      · exact hb x hx

theorem sortByKey_sorted (key : α → Nat) (l : List α) :
    (sortByKey key l).Pairwise (fun x y => key x ≤ key y) := by
  unfold sortByKey
  generalize hacc : ([] : List α) = acc
  have hsorted : acc.Pairwise (fun x y => key x ≤ key y) := by
    rw [← hacc]; exact List.Pairwise.nil
  clear hacc
  induction l generalizing acc with
  | nil => exact hsorted
  | cons a l ih => exact ih _ (insertByKey_sorted key a acc hsorted)

theorem pyEq_eq {a b : PyVal} (h : pyEq a b = true) : a = b := by
  cases a <;> cases b <;> simp [pyEq] at h <;> simp [h]

theorem pyEq_refl (a : PyVal) : pyEq a a = true := by
  cases a <;> simp [pyEq]

theorem dictContains_int_of_all_int {β : Type} (l : List (Nat × β)) (s : List Nat) :
    dictContains (l.map fun p => (PyVal.int p.1, p.2)) (PyVal.str s) = false := by
  induction l with
  | nil => rfl
  | cons p l ih => simpa [dictContains, pyEq] using ih

/-! ### C4: the duplicate-path check -/

/-- C4 (code bug): the duplicate check at line 98 tests the path *string*
for membership in the hash-keyed dict, whose keys are all *ints*, so it
never fires: first, over any int-keyed dict the membership test of a
string is false; second, on a table listing the same path "a" twice the
run completes successfully instead of stopping, the second insertion
silently overwrites the first (one catalog entry remains), and output
bytes are produced. -/
theorem C4_duplicate_check_never_fires :
    (∀ (l : List (Nat × MediaEntry)) (name : List Nat),
      dictContains (l.map fun p => (PyVal.int p.1, p.2)) (PyVal.str name) = false) ∧
    makeBnk false nmOut wemsW [lineSfxA, lineSfxA] =
      .ok (getOk (makeBnk false nmOut wemsW [lineSfxA, lineSfxA]) emptyBnkOutput) ∧
    (getOk (makeBnk false nmOut wemsW [lineSfxA, lineSfxA]) emptyBnkOutput).lookup.length = 1 ∧
    (getOk (makeBnk false nmOut wemsW [lineSfxA, lineSfxA]) emptyBnkOutput).fileBytes ≠ [] :=
  ⟨fun l name => dictContains_int_of_all_int l name, rfl, by decide, by decide⟩

/-! ### C5: unrecognized category tokens -/

/-- C5 counterexample: on the single-line table "XYZ TAB foo" the run is
not fatal: it completes with an ok result, records a diagnostic for line
0, and still produces the output file bytes — refuting the claim that no
output file is created. -/
theorem C5_invalid_type_not_fatal :
    makeBnk false nmOut wemsW [lineBadType] =
      .ok (getOk (makeBnk false nmOut wemsW [lineBadType]) emptyBnkOutput) ∧
    (getOk (makeBnk false nmOut wemsW [lineBadType]) emptyBnkOutput).warnings = [0] ∧
    (getOk (makeBnk false nmOut wemsW [lineBadType]) emptyBnkOutput).fileBytes ≠ [] :=
  ⟨rfl, by decide, by decide⟩

/-- C5 amended: a line whose category token upper-cases to neither SFX nor
BGM is only reported (its index is recorded) and skipped — it contributes
to neither category and the loop continues with the next line; a run over
a table containing such a line still completes and writes the output
file. -/
theorem C5_invalid_type_line_skipped :
    (∀ (i : Nat) (sfx bgm : List (List Nat)) (warns : List Nat) (line : List Nat)
        (rest : List (List Nat)) (t p : List Nat) (extra : List (List Nat)),
      splitTab (pyStrip line) = t :: p :: extra →
      upperStr t ≠ strSFX → upperStr t ≠ strBGM →
      readTableAux i sfx bgm warns (line :: rest) =
        readTableAux (i + 1) sfx bgm (warns ++ [i]) rest) ∧
    makeBnk false nmOut wemsW [lineBadType, lineSfxA] =
      .ok (getOk (makeBnk false nmOut wemsW [lineBadType, lineSfxA]) emptyBnkOutput) ∧
    (getOk (makeBnk false nmOut wemsW [lineBadType, lineSfxA]) emptyBnkOutput).sfx_wems = [[97]] ∧
    (getOk (makeBnk false nmOut wemsW [lineBadType, lineSfxA]) emptyBnkOutput).warnings = [0] ∧
    (getOk (makeBnk false nmOut wemsW [lineBadType, lineSfxA]) emptyBnkOutput).fileBytes ≠ [] := by
  refine ⟨?_, rfl, by decide, by decide, by decide⟩
  intro i sfx bgm warns line rest t p extra hsp h1 h2
  conv_lhs => rw [readTableAux.eq_def]
  simp only [hsp, if_neg h1, if_neg h2]

/-- Witness for the amended C5 at the concrete line "XYZ TAB foo". -/
theorem C5_invalid_type_line_skipped_witness :
    readTableAux 0 [] [] [] [lineBadType] = readTableAux 1 [] [] [0] [] :=
  C5_invalid_type_line_skipped.1 0 [] [] [] lineBadType []
    [88, 89, 90] [102, 111, 111] [] (by decide) (by decide) (by decide)

/-! ### C6: 8-byte alignment of clip offsets -/

/-- C6 (code bug): the padding loop at lines 142-144 writes
`wem_offset % 8` zero bytes instead of the `8 - wem_offset % 8` needed to
align.  On the table listing SFX wems "a" and "b", where "b" sorts first
by hash and its file has 5 bytes, the loop pads 5 zero bytes and records
offset 10 for "a" — and 10 mod 8 = 2, not 0, refuting the claim that
every recorded offset is a multiple of 8. -/
theorem C6_unaligned_offset :
    ((getOk (makeBnk false nmOut wemsW [lineSfxA, lineSfxB]) emptyBnkOutput).didxRecs.map
      fun e => (e.offset, e.size)) = [(0, 5), (10, 3)] ∧
    (10 : Int) % 8 = 2 ∧
    (getOk (makeBnk false nmOut wemsW [lineSfxA, lineSfxB]) emptyBnkOutput).dataBody =
      [1, 2, 3, 4, 5, 0, 0, 0, 0, 0, 7, 7, 7] :=
  ⟨by decide, by decide, by decide⟩

/-! ### C10: lines with fewer than two tab-separated fields -/

theorem splitTab_of_no_tab (l : List Nat) (h : (9 : Nat) ∉ l) : splitTab l = [l] := by
  induction l with
  | nil => rfl
  | cons c r ih =>
    have hc : (c == 9) = false := by
      cases hq : c == 9
      · rfl
      · have hc9 : c = 9 := beq_iff_eq.mp hq
        exact absurd (hc9 ▸ List.mem_cons_self c r) h
    have hr : (9 : Nat) ∉ r := fun hm => h (List.mem_cons_of_mem c hm)
    simp only [splitTab, ih hr, hc]
    rfl

theorem readTableAux_error_of_tabless :
    ∀ (lines : List (List Nat)) (i : Nat) (sfx bgm : List (List Nat)) (warns : List Nat)
      (line : List Nat), line ∈ lines → (9 : Nat) ∉ pyStrip line →
      ∃ j, readTableAux i sfx bgm warns lines = .error (.indexError j) := by
  intro lines
  induction lines with
  | nil =>
    intro i sfx bgm warns line h
    exact absurd h (List.not_mem_nil line)
  | cons hd rest ih =>
    intro i sfx bgm warns line hmem htab
    rcases List.mem_cons.mp hmem with rfl | hmem
    · refine ⟨i, ?_⟩
      rw [readTableAux.eq_def]
      simp only [splitTab_of_no_tab _ htab]
    · rw [readTableAux.eq_def]
      cases hsp : splitTab (pyStrip hd) with
      | nil => exact ⟨i, by simp only [hsp]⟩
      | cons t fs =>
        cases fs with
        | nil => exact ⟨i, by simp only [hsp]⟩
        | cons p fs2 =>
          by_cases h1 : upperStr t = strSFX
          · simp only [hsp, if_pos h1]
            exact ih (i + 1) (sfx ++ [p]) bgm warns line hmem htab
          · by_cases h2 : upperStr t = strBGM
            · simp only [hsp, if_neg h1, if_pos h2]
              exact ih (i + 1) sfx (bgm ++ [p]) warns line hmem htab
            · simp only [hsp, if_neg h1, if_neg h2]
              exact ih (i + 1) sfx bgm (warns ++ [i]) line hmem htab

/-- C10: when some input line contains no tab character after stripping,
its split has a single field, the access to the second field raises an
IndexError, and the run stops with that error — in the model the error is
returned before any output is assembled, matching the source where the
output file is opened only after the reading loop finishes. -/
theorem C10_tabless_line_fatal :
    ∀ (exclude_bgm : Bool) (bnk_out : List Nat) (wems : List Nat → List Nat)
      (lines : List (List Nat)) (line : List Nat),
      line ∈ lines → (9 : Nat) ∉ pyStrip line →
      ∃ j, makeBnk exclude_bgm bnk_out wems lines = .error (.indexError j) := by
  intro e b w lines line hmem htab
  obtain ⟨j, hj⟩ := readTableAux_error_of_tabless lines 0 [] [] [] line hmem htab
  have hr : readTable lines = .error (.indexError j) := hj
  refine ⟨j, ?_⟩
  unfold makeBnk
  rw [hr]

/-- Witness for C10 at the concrete one-line table "SFX" (no tab). -/
theorem C10_tabless_line_fatal_witness :
    ∃ j, makeBnk false nmOut wemsW [[83, 70, 88]] = .error (.indexError j) :=
  C10_tabless_line_fatal false nmOut wemsW [[83, 70, 88]] [83, 70, 88]
    (by decide) (by decide)

/-! ### Dictionary lemmas -/

theorem pyEq_iff {a b : PyVal} : pyEq a b = true ↔ a = b :=
  ⟨pyEq_eq, fun h => h ▸ pyEq_refl a⟩

theorem dictContains_iff {β : Type} {d : List (PyVal × β)} {k : PyVal} :
    dictContains d k = true ↔ k ∈ dictKeys d := by
  unfold dictContains dictKeys
  rw [List.any_eq_true]
  constructor
  · rintro ⟨kv, hkv, hq⟩
    exact (pyEq_eq hq) ▸ List.mem_map_of_mem Prod.fst hkv
  · intro hk
    rcases List.mem_map.mp hk with ⟨kv, hkv, hfst⟩
    exact ⟨kv, hkv, hfst ▸ pyEq_refl kv.1⟩

theorem dictContains_false {β : Type} {d : List (PyVal × β)} {k : PyVal}
    (h : k ∉ dictKeys d) : dictContains d k = false := by
  cases hc : dictContains d k
  · rfl
  · exact absurd (dictContains_iff.mp hc) h

theorem dictKeys_dictSet {β : Type} (d : List (PyVal × β)) (k : PyVal) (v : β) :
    dictKeys (dictSet d k v) =
      if dictContains d k = true then dictKeys d else dictKeys d ++ [k] := by
  induction d with
  | nil => simp [dictSet, dictContains, dictKeys]
  | cons kv r ih =>
    unfold dictSet
    by_cases hq : pyEq kv.1 k = true
    · rw [if_pos hq]
      have hk : kv.1 = k := pyEq_eq hq
      simp [dictKeys, dictContains, hk, pyEq_refl]
    · rw [if_neg hq]
      have hq' : pyEq kv.1 k = false := by
        cases h : pyEq kv.1 k
        · rfl
        · exact absurd h hq
      simp only [dictKeys, List.map_cons, dictContains, List.any_cons, hq',
        Bool.false_or] at ih ⊢
      rw [ih]
      split
      · rfl
      · simp

theorem nodup_dictKeys_dictSet {β : Type} (d : List (PyVal × β)) (k : PyVal) (v : β)
    (h : (dictKeys d).Nodup) : (dictKeys (dictSet d k v)).Nodup := by
  rw [dictKeys_dictSet]
  split
  · exact h
  · next hc =>
    have hk : k ∉ dictKeys d := by
      intro hm
      rw [dictContains_iff.mpr hm] at hc
      exact hc rfl
    simpa [List.nodup_append] using ⟨h, hk⟩

theorem mem_dictSet {β : Type} {d : List (PyVal × β)} {k : PyVal} {v : β} {kv : PyVal × β}
    (h : kv ∈ dictSet d k v) : kv = (k, v) ∨ kv ∈ d := by
  induction d with
  | nil => simpa [dictSet] using h
  | cons hd r ih =>
    unfold dictSet at h
    split at h
    · rcases List.mem_cons.mp h with rfl | hm
      · exact Or.inl rfl
      · exact Or.inr (List.mem_cons_of_mem hd hm)
    · rcases List.mem_cons.mp h with rfl | hm
      · exact Or.inr (List.mem_cons_self kv r)
      · rcases ih hm with h1 | h1
        · exact Or.inl h1
        · exact Or.inr (List.mem_cons_of_mem hd h1)

theorem dictGetD_mem {β : Type} {d : List (PyVal × β)} {k : PyVal} {dflt : β}
    (h : dictContains d k = true) : (k, dictGetD d k dflt) ∈ d := by
  induction d with
  | nil => simp [dictContains] at h
  | cons kv r ih =>
    unfold dictGetD
    by_cases hq : pyEq kv.1 k = true
    · rw [if_pos hq]
      have : kv = (k, kv.2) := by
        rw [← pyEq_eq hq]
      exact this ▸ List.mem_cons_self kv r
    · rw [if_neg hq]
      have hr : dictContains r k = true := by
        have := dictContains_iff.mp h
        simp only [dictKeys, List.map_cons, List.mem_cons] at this
        rcases this with h1 | h1
        · exact absurd (pyEq_iff.mpr h1.symm) hq
        · exact dictContains_iff.mpr h1
      exact List.mem_cons_of_mem kv (ih hr)

theorem mem_keyInts {β : Type} {d : List (PyVal × β)} {n : Nat} :
    n ∈ keyInts d ↔ PyVal.int n ∈ dictKeys d := by
  unfold keyInts dictKeys
  rw [List.mem_filterMap, List.mem_map]
  constructor
  · rintro ⟨kv, hkv, hk⟩
    refine ⟨kv, hkv, ?_⟩
    rcases h1 : kv.1 with m | s <;> rw [h1] at hk <;> simp at hk
    rw [hk]
  · rintro ⟨kv, hkv, hk⟩
    exact ⟨kv, hkv, by rw [hk]⟩

theorem length_keyInts {β : Type} {d : List (PyVal × β)}
    (h : ∀ kv ∈ d, ∃ n, kv.1 = PyVal.int n) : (keyInts d).length = d.length := by
  induction d with
  | nil => rfl
  | cons kv r ih =>
    obtain ⟨n, hn⟩ := h kv (List.mem_cons_self kv r)
    have hr := ih fun x hx => h x (List.mem_cons_of_mem kv hx)
    simp only [keyInts, List.filterMap_cons, hn] at hr ⊢
    simp [hr]

theorem nodup_keyInts {β : Type} {d : List (PyVal × β)}
    (h : (dictKeys d).Nodup) : (keyInts d).Nodup := by
  induction d with
  | nil => exact List.nodup_nil
  | cons kv r ih =>
    simp only [dictKeys, List.map_cons, List.nodup_cons] at h
    have hr := ih h.2
    rcases h1 : kv.1 with n | s
    · simp only [keyInts, List.filterMap_cons, h1]
      refine List.nodup_cons.mpr ⟨fun hm => ?_, hr⟩
      exact h.1 (h1 ▸ mem_keyInts.mp hm)
    · simpa only [keyInts, List.filterMap_cons, h1] using hr

/-! ### Invariants of the media catalog -/

/-- Facts about a successful `buildLookup` run: every binding of the
result either was already present or is the freshly built entry of some
stored name, and key-distinctness is preserved. -/
theorem buildLookup_props :
    ∀ (stored : List (List Nat)) (d d' : List (PyVal × MediaEntry)),
      buildLookup stored d = .ok d' →
      (∀ kv ∈ d', kv ∈ d ∨ ∃ name ∈ stored,
        kv = (PyVal.int (compute_hash name),
          ⟨compute_hash name, name, -1, -1⟩)) ∧
      ((dictKeys d).Nodup → (dictKeys d').Nodup) := by
  intro stored
  induction stored with
  | nil =>
    intro d d' h
    simp only [buildLookup] at h
    cases h
    exact ⟨fun kv hkv => Or.inl hkv, fun h => h⟩
  | cons name rest ih =>
    intro d d' h
    unfold buildLookup at h
    split at h
    · cases h
    · obtain ⟨hmem, hnd⟩ := ih _ _ h
      constructor
      · intro kv hkv
        rcases hmem kv hkv with h1 | ⟨nm, hnm, h2⟩
        · rcases mem_dictSet h1 with h2 | h2
          · exact Or.inr ⟨name, List.mem_cons_self name rest, h2⟩
          · exact Or.inl h2
        · exact Or.inr ⟨nm, List.mem_cons_of_mem name hnm, h2⟩
      · intro hd
        exact hnd (nodup_dictKeys_dictSet _ _ _ hd)

/-! ### Invariants of the DATA streaming loop -/

/-- The declared DATA length (the final `wem_offset`) counts exactly the
bytes streamed into the DATA body: initial offset plus body length. -/
theorem dataLoop_declared (wems : List Nat → List Nat) :
    ∀ (hs : List Nat) (lk : List (PyVal × MediaEntry)) (off : Nat),
      (dataLoop wems hs lk off).2.2 = off + (dataLoop wems hs lk off).2.1.length := by
  intro hs
  induction hs with
  | nil => intro lk off; simp [dataLoop]
  | cons h rest ih =>
    intro lk off
    unfold dataLoop
    simp only [List.length_append, List.length_replicate]
    rw [ih]
    omega

/-- The DATA loop only replaces values at existing keys: the key list is
unchanged, the hash field of every binding still matches its key, and any
property of the stored file names is preserved. -/
theorem dataLoop_inv (wems : List Nat → List Nat) (P : List Nat → Prop) :
    ∀ (hs : List Nat) (lk : List (PyVal × MediaEntry)) (off : Nat),
      (∀ h ∈ hs, dictContains lk (.int h) = true) →
      (∀ kv ∈ lk, kv.1 = PyVal.int kv.2.hash) →
      (∀ kv ∈ lk, P kv.2.wem_filename) →
      dictKeys (dataLoop wems hs lk off).1 = dictKeys lk ∧
      (∀ kv ∈ (dataLoop wems hs lk off).1, kv.1 = PyVal.int kv.2.hash) ∧
      (∀ kv ∈ (dataLoop wems hs lk off).1, P kv.2.wem_filename) := by
  intro hs
  induction hs with
  | nil =>
    intro lk off _ hhash hP
    exact ⟨rfl, hhash, hP⟩
  | cons h rest ih =>
    intro lk off hin hhash hP
    have hc : dictContains lk (.int h) = true := hin h (List.mem_cons_self h rest)
    have hentry : (PyVal.int h, dictGetD lk (.int h) defaultMediaEntry) ∈ lk :=
      dictGetD_mem hc
    have hkeys1 : dictKeys (dictSet lk (.int h)
        ⟨(dictGetD lk (.int h) defaultMediaEntry).hash,
          (dictGetD lk (.int h) defaultMediaEntry).wem_filename,
          (off + padLen off : Nat),
          ((wems (dictGetD lk (.int h) defaultMediaEntry).wem_filename).length : Nat)⟩) =
        dictKeys lk := by
      rw [dictKeys_dictSet, if_pos hc]
    have hhash1 : ∀ kv ∈ dictSet lk (.int h)
        ⟨(dictGetD lk (.int h) defaultMediaEntry).hash,
          (dictGetD lk (.int h) defaultMediaEntry).wem_filename,
          (off + padLen off : Nat),
          ((wems (dictGetD lk (.int h) defaultMediaEntry).wem_filename).length : Nat)⟩,
        kv.1 = PyVal.int kv.2.hash := by
      intro kv hkv
      rcases mem_dictSet hkv with rfl | hkv
      · exact hhash (PyVal.int h, dictGetD lk (PyVal.int h) defaultMediaEntry) hentry
      · exact hhash kv hkv
    have hP1 : ∀ kv ∈ dictSet lk (.int h)
        ⟨(dictGetD lk (.int h) defaultMediaEntry).hash,
          (dictGetD lk (.int h) defaultMediaEntry).wem_filename,
          (off + padLen off : Nat),
          ((wems (dictGetD lk (.int h) defaultMediaEntry).wem_filename).length : Nat)⟩,
        P kv.2.wem_filename := by
      intro kv hkv
      rcases mem_dictSet hkv with rfl | hkv
      · exact hP (PyVal.int h, dictGetD lk (PyVal.int h) defaultMediaEntry) hentry
      · exact hP kv hkv
    have hin1 : ∀ h2 ∈ rest, dictContains (dictSet lk (.int h)
        ⟨(dictGetD lk (.int h) defaultMediaEntry).hash,
          (dictGetD lk (.int h) defaultMediaEntry).wem_filename,
          (off + padLen off : Nat),
          ((wems (dictGetD lk (.int h) defaultMediaEntry).wem_filename).length : Nat)⟩)
        (.int h2) = true := by
      intro h2 hh2
      rw [dictContains_iff, hkeys1, ← dictContains_iff]
      exact hin h2 (List.mem_cons_of_mem h hh2)
    obtain ⟨k1, k2, k3⟩ := ih _ (off + padLen off +
      (wems (dictGetD lk (.int h) defaultMediaEntry).wem_filename).length) hin1 hhash1 hP1
    exact ⟨by rw [show dictKeys (dataLoop wems (h :: rest) lk off).1 =
        dictKeys (dataLoop wems rest _ _).1 from rfl, k1, hkeys1], k2, k3⟩

/-! ### Inverting a successful run -/

theorem makeBnk_ok_elim {e : Bool} {b : List Nat} {w : List Nat → List Nat}
    {lines : List (List Nat)} {out : BnkOutput}
    (h : makeBnk e b w lines = .ok out) :
    ∃ sfx bgm warns lk0,
      readTable lines = .ok (sfx, bgm, warns) ∧
      buildLookup (if e then sfx else sfx ++ bgm) [] = .ok lk0 ∧
      out = assembleOutput b w sfx bgm warns lk0 := by
  unfold makeBnk at h
  cases hr : readTable lines with
  | error err =>
    simp only [hr] at h
    exact Except.noConfusion h
  | ok trip =>
    obtain ⟨sfx, bgm, warns⟩ := trip
    simp only [hr] at h
    cases hb : buildLookup (if e then sfx else sfx ++ bgm) [] with
    | error err =>
      simp only [hb] at h
      exact Except.noConfusion h
    | ok lk0 =>
      simp only [hb] at h
      cases h
      exact ⟨sfx, bgm, warns, lk0, rfl, hb, rfl⟩

/-- The invariants of a catalog freshly built from an empty dict. -/
theorem buildLookup_inv {stored : List (List Nat)} {lk0 : List (PyVal × MediaEntry)}
    (h : buildLookup stored [] = .ok lk0) :
    (∀ kv ∈ lk0, kv.1 = PyVal.int kv.2.hash) ∧
    (∀ kv ∈ lk0, ∃ n, kv.1 = PyVal.int n) ∧
    (∀ kv ∈ lk0, ∃ name ∈ stored, kv.1 = PyVal.int (compute_hash name)) ∧
    (dictKeys lk0).Nodup := by
  obtain ⟨hmem, hnd⟩ := buildLookup_props stored [] lk0 h
  refine ⟨?_, ?_, ?_, hnd (by simp [dictKeys])⟩
  · intro kv hkv
    rcases hmem kv hkv with h1 | ⟨name, _, h1⟩
    · exact absurd h1 (List.not_mem_nil kv)
    · rw [h1]
  · intro kv hkv
    rcases hmem kv hkv with h1 | ⟨name, _, h1⟩
    · exact absurd h1 (List.not_mem_nil kv)
    · exact ⟨compute_hash name, by rw [h1]⟩
  · intro kv hkv
    rcases hmem kv hkv with h1 | ⟨name, hname, h1⟩
    · exact absurd h1 (List.not_mem_nil kv)
    · exact ⟨name, hname, by rw [h1]⟩

/-- Every hash in the sorted key list is a key of the fresh catalog. -/
theorem sortedHashes_contains {lk0 : List (PyVal × MediaEntry)} {h : Nat}
    (hm : h ∈ sortByKey (fun h => h) (keyInts lk0)) :
    dictContains lk0 (.int h) = true :=
  dictContains_iff.mpr (mem_keyInts.mp ((mem_sortByKey _ _ h).mp hm))

/-- Each DIDX record is 12 bytes. -/
theorem length_flatMap_didx (l : List MediaEntry) :
    (l.flatMap didxEntryBytes).length = 12 * l.length := by
  induction l with
  | nil => rfl
  | cons e r ih =>
    simp only [List.flatMap_cons, List.length_append, ih, didxEntryBytes, le32]
    simp [List.length_append]
    omega

/-- C3: every declared chunk length equals the byte length of the chunk
body it prefixes: the BKHD body is exactly the declared 0x18 bytes; the
declared DIDX length equals the DIDX body length and is 12 bytes per
emitted record; the declared DATA length equals the DATA body length
(clip bytes plus inserted padding); and the back-patched HIRC length
(end position minus the position just after the length field) equals the
HIRC body length. -/
theorem C3_chunk_lengths :
    ∀ (exclude_bgm : Bool) (bnk_out : List Nat) (wems : List Nat → List Nat)
      (lines : List (List Nat)) (out : BnkOutput),
      makeBnk exclude_bgm bnk_out wems lines = .ok out →
      (bkhdBody out.bnkName).length = 0x18 ∧
      out.didxDeclared = out.didxBody.length ∧
      out.didxDeclared = 12 * out.didxRecs.length ∧
      out.dataDeclared = out.dataBody.length ∧
      out.hircDeclared = out.hircBody.length := by
  intro e b w lines out h
  obtain ⟨sfx, bgm, warns, lk0, hr, hb, rfl⟩ := makeBnk_ok_elim h
  obtain ⟨hhash, hint, hfrom, hnd⟩ := buildLookup_inv hb
  simp only [assembleOutput]
  have hlen : ((sortByKey (fun h => h) (keyInts lk0)).map fun h =>
      dictGetD (dataLoop w (sortByKey (fun h => h) (keyInts lk0)) lk0 0).1
        (.int h) defaultMediaEntry).length = lk0.length := by
    rw [List.length_map, (sortByKey_perm _ _).length_eq, length_keyInts hint]
  refine ⟨by simp [bkhdBody, le32], ?_, ?_, ?_, ?_⟩
  · rw [length_flatMap_didx, hlen]
  · rw [hlen]
  · have := dataLoop_declared w (sortByKey (fun h => h) (keyInts lk0)) lk0 0
    omega
  · omega

/-- Witness for C3 on the two-clip table "SFX a", "SFX b". -/
theorem C3_chunk_lengths_witness :
    (bkhdBody (getOk (makeBnk false nmOut wemsW [lineSfxA, lineSfxB]) emptyBnkOutput).bnkName).length = 0x18 ∧
    (getOk (makeBnk false nmOut wemsW [lineSfxA, lineSfxB]) emptyBnkOutput).didxDeclared =
      (getOk (makeBnk false nmOut wemsW [lineSfxA, lineSfxB]) emptyBnkOutput).didxBody.length ∧
    (getOk (makeBnk false nmOut wemsW [lineSfxA, lineSfxB]) emptyBnkOutput).didxDeclared =
      12 * (getOk (makeBnk false nmOut wemsW [lineSfxA, lineSfxB]) emptyBnkOutput).didxRecs.length ∧
    (getOk (makeBnk false nmOut wemsW [lineSfxA, lineSfxB]) emptyBnkOutput).dataDeclared =
      (getOk (makeBnk false nmOut wemsW [lineSfxA, lineSfxB]) emptyBnkOutput).dataBody.length ∧
    (getOk (makeBnk false nmOut wemsW [lineSfxA, lineSfxB]) emptyBnkOutput).hircDeclared =
      (getOk (makeBnk false nmOut wemsW [lineSfxA, lineSfxB]) emptyBnkOutput).hircBody.length :=
  C3_chunk_lengths false nmOut wemsW [lineSfxA, lineSfxB]
    (getOk (makeBnk false nmOut wemsW [lineSfxA, lineSfxB]) emptyBnkOutput) rfl

/-- C2: the DIDX records of every produced file are strictly ascending in
their hash field: the writer walks the sorted key list of the hash-keyed
dict, whose keys are pairwise distinct, and the hash of each emitted record
equals its key. -/
theorem C2_didx_strictly_ascending :
    ∀ (exclude_bgm : Bool) (bnk_out : List Nat) (wems : List Nat → List Nat)
      (lines : List (List Nat)) (out : BnkOutput),
      makeBnk exclude_bgm bnk_out wems lines = .ok out →
      (out.didxRecs.map MediaEntry.hash).Pairwise (· < ·) := by
  intro e b w lines out h
  obtain ⟨sfx, bgm, warns, lk0, hr, hb, rfl⟩ := makeBnk_ok_elim h
  obtain ⟨hhash, hint, hfrom, hnd⟩ := buildLookup_inv hb
  simp only [assembleOutput]
  obtain ⟨hkeys, hhash2, _⟩ := dataLoop_inv w (fun _ => True)
    (sortByKey (fun h => h) (keyInts lk0)) lk0 0
    (fun h2 hm => sortedHashes_contains hm) hhash (fun _ _ => trivial)
  have hmap : (((sortByKey (fun h => h) (keyInts lk0)).map fun h2 =>
      dictGetD (dataLoop w (sortByKey (fun h => h) (keyInts lk0)) lk0 0).1
        (.int h2) defaultMediaEntry).map MediaEntry.hash) =
      sortByKey (fun h => h) (keyInts lk0) := by
    rw [List.map_map]
    have hpt : ∀ h2 ∈ sortByKey (fun h => h) (keyInts lk0),
        (MediaEntry.hash ∘ fun h2 =>
          dictGetD (dataLoop w (sortByKey (fun h => h) (keyInts lk0)) lk0 0).1
            (.int h2) defaultMediaEntry) h2 = h2 := by
      intro h2 hm
      have hc : dictContains (dataLoop w (sortByKey (fun h => h) (keyInts lk0)) lk0 0).1
          (.int h2) = true := by
        rw [dictContains_iff, hkeys, ← dictContains_iff]
        exact sortedHashes_contains hm
      have hmem := @dictGetD_mem MediaEntry _ _ defaultMediaEntry hc
      have hk := hhash2 _ hmem
      simp only at hk
      have : h2 = (dictGetD (dataLoop w (sortByKey (fun h => h) (keyInts lk0)) lk0 0).1
          (.int h2) defaultMediaEntry).hash := by
        injection hk
      simp only [Function.comp]
      omega
    rw [List.map_congr_left hpt]
    simp
  rw [hmap]
  have hsort := sortByKey_sorted (fun h => h) (keyInts lk0)
  have hnodup : (sortByKey (fun h => h) (keyInts lk0)).Nodup :=
    ((sortByKey_perm _ _).nodup_iff).mpr (nodup_keyInts hnd)
  exact (hsort.and hnodup).imp fun hab => lt_of_le_of_ne hab.1 hab.2

/-- Witness for C2 on the two-clip table "SFX a", "SFX b". -/
theorem C2_didx_strictly_ascending_witness :
    ((getOk (makeBnk false nmOut wemsW [lineSfxA, lineSfxB]) emptyBnkOutput).didxRecs.map
      MediaEntry.hash).Pairwise (· < ·) :=
  C2_didx_strictly_ascending false nmOut wemsW [lineSfxA, lineSfxB]
    (getOk (makeBnk false nmOut wemsW [lineSfxA, lineSfxB]) emptyBnkOutput) rfl

/-! ### Counting the HIRC objects -/

theorem sum_map_const {α : Type} (l : List α) (c : Nat) :
    (l.map fun _ => c).sum = c * l.length := by
  induction l with
  | nil => simp
  | cons a r ih =>
    simp only [List.map_cons, List.sum_cons, ih, List.length_cons]
    ring

theorem count_sound_sfx (sfx bgm : List (List Nat)) :
    ((sound_entry_list sfx bgm).filter fun se => se.wem_type == strSFX).length
      = sfx.length := by
  rw [← List.countP_eq_length_filter]
  unfold sound_entry_list
  rw [(sortByKey_perm _ _).countP_eq, List.countP_append, List.countP_map,
    List.countP_map]
  have h1 : List.countP ((fun se : SoundEntry => se.wem_type == strSFX) ∘ fun n =>
      (⟨compute_hash (n ++ sufSound), compute_hash n, strSFX⟩ : SoundEntry)) sfx
      = sfx.length := by
    have : ∀ l : List (List Nat), List.countP ((fun se : SoundEntry => se.wem_type == strSFX) ∘ fun n =>
        (⟨compute_hash (n ++ sufSound), compute_hash n, strSFX⟩ : SoundEntry)) l = l.length := by
      intro l
      induction l with
      | nil => rfl
      | cons a r ih => rw [List.countP_cons] ; simp [ih, Function.comp]
    exact this sfx
  have h2 : List.countP ((fun se : SoundEntry => se.wem_type == strSFX) ∘ fun n =>
      (⟨compute_hash (n ++ sufSound), compute_hash n, strBGM⟩ : SoundEntry)) bgm = 0 := by
    have : ∀ l : List (List Nat), List.countP ((fun se : SoundEntry => se.wem_type == strSFX) ∘ fun n =>
        (⟨compute_hash (n ++ sufSound), compute_hash n, strBGM⟩ : SoundEntry)) l = 0 := by
      intro l
      induction l with
      | nil => rfl
      | cons a r ih => rw [List.countP_cons] ; simp [Function.comp, strBGM, strSFX, ih]
    exact this bgm
  omega

theorem count_sound_bgm (sfx bgm : List (List Nat)) :
    ((sound_entry_list sfx bgm).filter fun se => se.wem_type == strBGM).length
      = bgm.length := by
  rw [← List.countP_eq_length_filter]
  unfold sound_entry_list
  rw [(sortByKey_perm _ _).countP_eq, List.countP_append, List.countP_map,
    List.countP_map]
  have h1 : List.countP ((fun se : SoundEntry => se.wem_type == strBGM) ∘ fun n =>
      (⟨compute_hash (n ++ sufSound), compute_hash n, strSFX⟩ : SoundEntry)) sfx = 0 := by
    have : ∀ l : List (List Nat), List.countP ((fun se : SoundEntry => se.wem_type == strBGM) ∘ fun n =>
        (⟨compute_hash (n ++ sufSound), compute_hash n, strSFX⟩ : SoundEntry)) l = 0 := by
      intro l
      induction l with
      | nil => rfl
      | cons a r ih => rw [List.countP_cons] ; simp [Function.comp, strBGM, strSFX, ih]
    exact this sfx
  have h2 : List.countP ((fun se : SoundEntry => se.wem_type == strBGM) ∘ fun n =>
      (⟨compute_hash (n ++ sufSound), compute_hash n, strBGM⟩ : SoundEntry)) bgm
      = bgm.length := by
    have : ∀ l : List (List Nat), List.countP ((fun se : SoundEntry => se.wem_type == strBGM) ∘ fun n =>
        (⟨compute_hash (n ++ sufSound), compute_hash n, strBGM⟩ : SoundEntry)) l = l.length := by
      intro l
      induction l with
      | nil => rfl
      | cons a r ih => rw [List.countP_cons] ; simp [ih, Function.comp]
    exact this bgm
  omega

theorem length_mixerObjs (lk : List (PyVal × MediaEntry)) (sounds : List SoundEntry)
    (m : Nat × List Nat) :
    (mixerObjs lk sounds m).length =
      if (sounds.filter fun se => se.wem_type == m.2).length = 0 then 0
      else (sounds.filter fun se => se.wem_type == m.2).length + 1 := by
  simp only [mixerObjs]
  by_cases hz : (sounds.filter fun se => se.wem_type == m.2).length = 0
  · simp [hz]
  · rw [if_neg hz, if_neg hz]
    split <;> simp

theorem length_mixerObjs_sfx (lk : List (PyVal × MediaEntry))
    (sfx bgm : List (List Nat)) (h : Nat) :
    (mixerObjs lk (sound_entry_list sfx bgm) (h, strSFX)).length =
      if 0 < sfx.length then sfx.length + 1 else 0 := by
  rw [length_mixerObjs]
  have hc : ((sound_entry_list sfx bgm).filter fun se =>
      se.wem_type == ((h, strSFX) : Nat × List Nat).2).length = sfx.length :=
    count_sound_sfx sfx bgm
  rw [hc]
  split_ifs <;> omega

theorem length_mixerObjs_bgm (lk : List (PyVal × MediaEntry))
    (sfx bgm : List (List Nat)) (h : Nat) :
    (mixerObjs lk (sound_entry_list sfx bgm) (h, strBGM)).length =
      if 0 < bgm.length then bgm.length + 1 else 0 := by
  rw [length_mixerObjs]
  have hc : ((sound_entry_list sfx bgm).filter fun se =>
      se.wem_type == ((h, strBGM) : Nat × List Nat).2).length = bgm.length :=
    count_sound_bgm sfx bgm
  rw [hc]
  split_ifs <;> omega

theorem length_hircMixerSection (b : List Nat) (lk : List (PyVal × MediaEntry))
    (sfx bgm : List (List Nat)) :
    (hircMixerSection b lk sfx bgm).length =
      (if 0 < sfx.length then sfx.length + 1 else 0) +
      (if 0 < bgm.length then bgm.length + 1 else 0) := by
  unfold hircMixerSection mixer_order
  rw [List.length_flatMap]
  rw [((sortByKey_perm Prod.fst
    [(compute_hash (b ++ sufSfxMix), strSFX),
      (compute_hash (b ++ sufBgmMix), strBGM)]).map
    (List.length ∘ mixerObjs lk (sound_entry_list sfx bgm))).sum_eq]
  simp only [List.map_cons, List.map_nil, List.sum_cons, List.sum_nil, Function.comp]
  rw [length_mixerObjs_sfx lk sfx bgm, length_mixerObjs_bgm lk sfx bgm]
  omega

theorem length_eventObjs (b : List Nat) (e : EventEntry) :
    (eventObjs b e).length = if e.wem_type = strSFX then 2 else 4 := by
  unfold eventObjs
  split <;> simp_all

theorem length_hircEventSection (b : List Nat) (sfx bgm : List (List Nat)) :
    (hircEventSection b sfx bgm).length = 2 * sfx.length + 4 * bgm.length := by
  unfold hircEventSection event_entry_list
  rw [List.length_flatMap]
  rw [((sortByKey_perm EventEntry.hash _).map (List.length ∘ eventObjs b)).sum_eq]
  rw [List.map_append, List.sum_append, List.map_map, List.map_map]
  have h1 : ((List.length ∘ eventObjs b) ∘ fun n =>
      (⟨compute_hash (n ++ sufPlayEvent), n, strSFX⟩ : EventEntry)) = fun _ => 2 := by
    funext n
    simp [Function.comp, length_eventObjs]
  have h2 : ((List.length ∘ eventObjs b) ∘ fun n =>
      (⟨compute_hash (n ++ sufPlayEvent), n, strBGM⟩ : EventEntry)) = fun _ => 4 := by
    funext n
    simp [Function.comp, length_eventObjs, strBGM, strSFX]
  rw [h1, h2, sum_map_const, sum_map_const]

/-- C7: the u32 object count written at the start of the HIRC chunk
equals mixers_present + 3 * sfx_count + 5 * bgm_count (one mixer per
non-empty category), and also equals the number of object records
actually emitted into the HIRC body. -/
theorem C7_hirc_count :
    ∀ (exclude_bgm : Bool) (bnk_out : List Nat) (wems : List Nat → List Nat)
      (lines : List (List Nat)) (out : BnkOutput),
      makeBnk exclude_bgm bnk_out wems lines = .ok out →
      out.hircCount =
        ((if out.sfx_wems ≠ [] then 1 else 0) + (if out.bgm_wems ≠ [] then 1 else 0) +
          3 * out.sfx_wems.length + 5 * out.bgm_wems.length) ∧
      out.hircCount = (out.mixerSection ++ out.eventSection).length := by
  intro e b w lines out h
  obtain ⟨sfx, bgm, warns, lk0, hr, hb, rfl⟩ := makeBnk_ok_elim h
  simp only [assembleOutput]
  constructor
  · unfold hirc_entry_count
    rcases eq_or_ne sfx ([] : List (List Nat)) with hs | hs <;>
      rcases eq_or_ne bgm ([] : List (List Nat)) with hbg | hbg <;>
        simp [hs, hbg, List.length_pos]
  · rw [List.length_append, length_hircMixerSection, length_hircEventSection]
    unfold hirc_entry_count
    split_ifs <;> omega

/-! ### Structure of the HIRC event area -/

theorem sfx_entry_mem_event_entry_list {n : List Nat} (sfx bgm : List (List Nat))
    (h : n ∈ sfx) :
    (⟨compute_hash (n ++ sufPlayEvent), n, strSFX⟩ : EventEntry) ∈
      event_entry_list sfx bgm := by
  rw [event_entry_list, mem_sortByKey]
  exact List.mem_append_left _ (List.mem_map_of_mem _ h)

theorem bgm_entry_mem_event_entry_list {n : List Nat} (sfx bgm : List (List Nat))
    (h : n ∈ bgm) :
    (⟨compute_hash (n ++ sufPlayEvent), n, strBGM⟩ : EventEntry) ∈
      event_entry_list sfx bgm := by
  rw [event_entry_list, mem_sortByKey]
  exact List.mem_append_right _ (List.mem_map_of_mem _ h)

theorem eventObjs_sfx_entry (b n : List Nat) :
    eventObjs b ⟨compute_hash (n ++ sufPlayEvent), n, strSFX⟩ =
      [.actionPlay (compute_hash (n ++ sufPlay)) (compute_hash (n ++ sufSound))
          (compute_hash b),
        .eventSfx (compute_hash (n ++ sufPlayEvent)) (compute_hash (n ++ sufPlay))] := by
  simp [eventObjs]

theorem eventObjs_bgm_entry (b n : List Nat) :
    eventObjs b ⟨compute_hash (n ++ sufPlayEvent), n, strBGM⟩ =
      [.actionStop1 (compute_hash (n ++ sufStop1)),
        .actionPlay (compute_hash (n ++ sufPlay)) (compute_hash (n ++ sufSound))
          (compute_hash b),
        .actionStop2 (compute_hash (n ++ sufStop2)),
        .eventBgm (compute_hash (n ++ sufPlayEvent)) (compute_hash (n ++ sufStop1))
          (compute_hash (n ++ sufPlay)) (compute_hash (n ++ sufStop2))] := by
  simp [eventObjs, strBGM, strSFX]

theorem flatMap_infix {α β : Type} {l : List α} {a : α} (f : α → List β) (h : a ∈ l) :
    ∃ pre post, l.flatMap f = pre ++ f a ++ post := by
  rcases List.mem_iff_append.mp h with ⟨s, t, rfl⟩
  exact ⟨s.flatMap f, t.flatMap f,
    by simp [List.flatMap_append, List.flatMap_cons, List.append_assoc]⟩

theorem filter_isEventObj_eventObjs (b : List Nat) (e : EventEntry) :
    (eventObjs b e).filter isEventObj = [eventRecordOf e] := by
  unfold eventObjs eventRecordOf
  split <;> simp [isEventObj, List.filter]

theorem filter_flatMap {α β : Type} (l : List α) (f : α → List β) (p : β → Bool) :
    (l.flatMap f).filter p = l.flatMap fun a => (f a).filter p := by
  induction l with
  | nil => rfl
  | cons a r ih => simp [List.flatMap_cons, List.filter_append, ih]

theorem flatMap_eq_map_of_singleton {α β : Type} (l : List α) (g : α → β)
    (f : α → List β) (h : ∀ a ∈ l, f a = [g a]) : l.flatMap f = l.map g := by
  induction l with
  | nil => rfl
  | cons a r ih =>
    rw [List.flatMap_cons, h a (List.mem_cons_self a r),
      ih fun x hx => h x (List.mem_cons_of_mem a hx), List.map_cons]
    rfl

theorem hircObjId_eventRecordOf (e : EventEntry) :
    hircObjId (eventRecordOf e) = e.hash := by
  unfold eventRecordOf
  split <;> rfl

/-- The event records inside the HIRC event area appear in ascending hash
order. -/
theorem eventSection_events_sorted (b : List Nat) (sfx bgm : List (List Nat)) :
    (((hircEventSection b sfx bgm).filter isEventObj).map hircObjId).Pairwise (· ≤ ·) := by
  unfold hircEventSection
  rw [filter_flatMap,
    flatMap_eq_map_of_singleton _ eventRecordOf _
      (fun e _ => filter_isEventObj_eventObjs b e),
    List.map_map]
  have hcomp : ∀ e ∈ event_entry_list sfx bgm,
      (hircObjId ∘ eventRecordOf) e = EventEntry.hash e := by
    intro e _
    exact hircObjId_eventRecordOf e
  rw [List.map_congr_left hcomp]
  rw [List.pairwise_map]
  exact sortByKey_sorted EventEntry.hash _

/-- C8: each SFX clip contributes exactly one Play action immediately
followed by its event record (whose action list is that one Play); each
BGM clip contributes its three actions in the fixed order stop-previous,
play, stop-competing, immediately followed by its event record (whose
action list is those three in that order); and the event records of both
categories appear in the emitted object stream in ascending order of
event identifier. -/
theorem C8_event_emission :
    ∀ (exclude_bgm : Bool) (bnk_out : List Nat) (wems : List Nat → List Nat)
      (lines : List (List Nat)) (out : BnkOutput),
      makeBnk exclude_bgm bnk_out wems lines = .ok out →
      (((out.eventSection.filter isEventObj).map hircObjId).Pairwise (· ≤ ·)) ∧
      (∀ n ∈ out.sfx_wems, ∃ pre post,
        out.eventSection = pre ++
          [HircObj.actionPlay (compute_hash (n ++ sufPlay))
              (compute_hash (n ++ sufSound)) (compute_hash out.bnkName),
            HircObj.eventSfx (compute_hash (n ++ sufPlayEvent))
              (compute_hash (n ++ sufPlay))] ++ post) ∧
      (∀ n ∈ out.bgm_wems, ∃ pre post,
        out.eventSection = pre ++
          [HircObj.actionStop1 (compute_hash (n ++ sufStop1)),
            HircObj.actionPlay (compute_hash (n ++ sufPlay))
              (compute_hash (n ++ sufSound)) (compute_hash out.bnkName),
            HircObj.actionStop2 (compute_hash (n ++ sufStop2)),
            HircObj.eventBgm (compute_hash (n ++ sufPlayEvent))
              (compute_hash (n ++ sufStop1)) (compute_hash (n ++ sufPlay))
              (compute_hash (n ++ sufStop2))] ++ post) := by
  intro e b w lines out h
  obtain ⟨sfx, bgm, warns, lk0, hr, hb, rfl⟩ := makeBnk_ok_elim h
  simp only [assembleOutput]
  refine ⟨eventSection_events_sorted b sfx bgm, ?_, ?_⟩
  · intro n hn
    obtain ⟨pre, post, hsplit⟩ :=
      flatMap_infix (eventObjs b) (sfx_entry_mem_event_entry_list sfx bgm hn)
    rw [eventObjs_sfx_entry] at hsplit
    exact ⟨pre, post, hsplit⟩
  · intro n hn
    obtain ⟨pre, post, hsplit⟩ :=
      flatMap_infix (eventObjs b) (bgm_entry_mem_event_entry_list sfx bgm hn)
    rw [eventObjs_bgm_entry] at hsplit
    exact ⟨pre, post, hsplit⟩

/-- Witness for C8 on the mixed table "SFX foo.wem", "BGM bar.wem". -/
theorem C8_event_emission_witness :
    (((getOk (makeBnk false nmOut wemsW [lineSfxFoo, lineBgmBar]) emptyBnkOutput).eventSection.filter
      isEventObj).map hircObjId).Pairwise (· ≤ ·) :=
  (C8_event_emission false nmOut wemsW [lineSfxFoo, lineBgmBar]
    (getOk (makeBnk false nmOut wemsW [lineSfxFoo, lineBgmBar]) emptyBnkOutput) rfl).1

/-- Witness for C7 on the mixed table "SFX foo.wem", "BGM bar.wem". -/
theorem C7_hirc_count_witness :
    (getOk (makeBnk false nmOut wemsW [lineSfxFoo, lineBgmBar]) emptyBnkOutput).hircCount =
      ((if (getOk (makeBnk false nmOut wemsW [lineSfxFoo, lineBgmBar]) emptyBnkOutput).sfx_wems ≠ []
          then 1 else 0) +
        (if (getOk (makeBnk false nmOut wemsW [lineSfxFoo, lineBgmBar]) emptyBnkOutput).bgm_wems ≠ []
          then 1 else 0) +
        3 * (getOk (makeBnk false nmOut wemsW [lineSfxFoo, lineBgmBar]) emptyBnkOutput).sfx_wems.length +
        5 * (getOk (makeBnk false nmOut wemsW [lineSfxFoo, lineBgmBar]) emptyBnkOutput).bgm_wems.length) ∧
    (getOk (makeBnk false nmOut wemsW [lineSfxFoo, lineBgmBar]) emptyBnkOutput).hircCount =
      ((getOk (makeBnk false nmOut wemsW [lineSfxFoo, lineBgmBar]) emptyBnkOutput).mixerSection ++
        (getOk (makeBnk false nmOut wemsW [lineSfxFoo, lineBgmBar]) emptyBnkOutput).eventSection).length :=
  C7_hirc_count false nmOut wemsW [lineSfxFoo, lineBgmBar]
    (getOk (makeBnk false nmOut wemsW [lineSfxFoo, lineBgmBar]) emptyBnkOutput) rfl

/-! ### The exclude-BGM asymmetry -/

theorem bgm_sound_mem_sound_entry_list {n : List Nat} (sfx bgm : List (List Nat))
    (h : n ∈ bgm) :
    (⟨compute_hash (n ++ sufSound), compute_hash n, strBGM⟩ : SoundEntry) ∈
      sound_entry_list sfx bgm := by
  rw [sound_entry_list, mem_sortByKey]
  exact List.mem_append_right _ (List.mem_map_of_mem _ h)

theorem bgmSoundObj_mem_mixerSection (b : List Nat) (lk : List (PyVal × MediaEntry))
    (sfx bgm : List (List Nat)) {n : List Nat} (h : n ∈ bgm) :
    bgmSoundObj lk (compute_hash (b ++ sufBgmMix))
      ⟨compute_hash (n ++ sufSound), compute_hash n, strBGM⟩ ∈
      hircMixerSection b lk sfx bgm := by
  unfold hircMixerSection
  rw [List.mem_flatMap]
  refine ⟨(compute_hash (b ++ sufBgmMix), strBGM), ?_, ?_⟩
  · rw [mixer_order, mem_sortByKey]
    exact List.mem_cons_of_mem _ (List.mem_cons_self _ _)
  · have hentry : (⟨compute_hash (n ++ sufSound), compute_hash n, strBGM⟩ : SoundEntry) ∈
        (sound_entry_list sfx bgm).filter fun se => se.wem_type == strBGM := by
      rw [List.mem_filter]
      exact ⟨bgm_sound_mem_sound_entry_list sfx bgm h, by simp⟩
    have hne : ¬ ((sound_entry_list sfx bgm).filter fun se =>
        se.wem_type == strBGM).length = 0 := by
      intro h0
      rw [List.length_eq_zero] at h0
      rw [h0] at hentry
      exact absurd hentry (List.not_mem_nil _)
    simp only [mixerObjs]
    rw [if_neg hne, if_neg (show strBGM ≠ strSFX from by decide)]
    exact List.mem_append_left _ (List.mem_map_of_mem _ hentry)

/-- C9: with the exclude-BGM option on, a BGM clip (whose hash does not
collide with that of any SFX clip) gets no clip-index record and no bytes
in the blob area, yet the hierarchy still carries its full 5-object BGM
pattern: its sound record — with the placeholder constant 1024 in the
uSize field instead of a measured length — sits in the mixer area, and
its stop-previous, play, stop-competing actions and event record sit in
the event area. -/
theorem C9_exclude_bgm :
    ∀ (bnk_out : List Nat) (wems : List Nat → List Nat) (lines : List (List Nat))
      (out : BnkOutput) (n : List Nat),
      makeBnk true bnk_out wems lines = .ok out →
      n ∈ out.bgm_wems →
      compute_hash n ∉ out.sfx_wems.map compute_hash →
      (∀ rec ∈ out.didxRecs, rec.hash ≠ compute_hash n) ∧
      HircObj.soundBgm (compute_hash (n ++ sufSound)) (compute_hash n) 1024
        (compute_hash (out.bnkName ++ sufBgmMix)) ∈ out.mixerSection ∧
      (∃ pre post, out.eventSection = pre ++
        [HircObj.actionStop1 (compute_hash (n ++ sufStop1)),
          HircObj.actionPlay (compute_hash (n ++ sufPlay))
            (compute_hash (n ++ sufSound)) (compute_hash out.bnkName),
          HircObj.actionStop2 (compute_hash (n ++ sufStop2)),
          HircObj.eventBgm (compute_hash (n ++ sufPlayEvent))
            (compute_hash (n ++ sufStop1)) (compute_hash (n ++ sufPlay))
            (compute_hash (n ++ sufStop2))] ++ post) := by
  intro b w lines out n h hn hnot
  obtain ⟨sfx, bgm, warns, lk0, hr, hb, rfl⟩ := makeBnk_ok_elim h
  rw [if_pos rfl] at hb
  obtain ⟨hhash, hint, hfrom, hnd⟩ := buildLookup_inv hb
  simp only [assembleOutput] at hn hnot ⊢
  obtain ⟨hkeys, hhash2, _⟩ := dataLoop_inv w (fun _ => True)
    (sortByKey (fun h => h) (keyInts lk0)) lk0 0
    (fun h2 hm => sortedHashes_contains hm) hhash (fun _ _ => trivial)
  have hnotkey : PyVal.int (compute_hash n) ∉ dictKeys lk0 := by
    intro hkm
    rcases List.mem_map.mp hkm with ⟨kv, hkv, hfst⟩
    rcases hfrom kv hkv with ⟨name, hname, hkeq⟩
    rw [hkeq] at hfst
    have : compute_hash n = compute_hash name := by injection hfst.symm
    exact hnot (this ▸ List.mem_map_of_mem compute_hash hname)
  refine ⟨?_, ?_, ?_⟩
  · intro rec hrec heq
    rcases List.mem_map.mp hrec with ⟨h2, hm, rfl⟩
    have hc : dictContains (dataLoop w (sortByKey (fun h => h) (keyInts lk0)) lk0 0).1
        (.int h2) = true := by
      rw [dictContains_iff, hkeys, ← dictContains_iff]
      exact sortedHashes_contains hm
    have hmem := @dictGetD_mem MediaEntry _ _ defaultMediaEntry hc
    have hk := hhash2 _ hmem
    simp only at hk
    have hh2 : h2 = (dictGetD (dataLoop w (sortByKey (fun h => h) (keyInts lk0)) lk0 0).1
        (.int h2) defaultMediaEntry).hash := by injection hk
    apply hnotkey
    rw [← hh2] at heq
    rw [← heq]
    exact mem_keyInts.mp ((mem_sortByKey _ _ h2).mp hm)
  · have hcf : dictContains (dataLoop w (sortByKey (fun h => h) (keyInts lk0)) lk0 0).1
        (.int (compute_hash n)) = false := by
      apply dictContains_false
      rw [hkeys]
      exact hnotkey
    have hmem := bgmSoundObj_mem_mixerSection b
      (dataLoop w (sortByKey (fun h => h) (keyInts lk0)) lk0 0).1 sfx bgm hn
    unfold bgmSoundObj at hmem
    simp only [hcf] at hmem
    simpa using hmem
  · obtain ⟨pre, post, hsplit⟩ :=
      flatMap_infix (eventObjs b) (bgm_entry_mem_event_entry_list sfx bgm hn)
    rw [eventObjs_bgm_entry] at hsplit
    exact ⟨pre, post, hsplit⟩

/-- Witness for C9: exclude-BGM on with table "SFX foo.wem",
"BGM bar.wem"; the hashes of the two paths differ. -/
theorem C9_exclude_bgm_witness :
    (∀ rec ∈ (getOk (makeBnk true nmOut wemsW [lineSfxFoo, lineBgmBar]) emptyBnkOutput).didxRecs,
      rec.hash ≠ compute_hash [98, 97, 114, 46, 119, 101, 109]) ∧
    HircObj.soundBgm (compute_hash ([98, 97, 114, 46, 119, 101, 109] ++ sufSound))
      (compute_hash [98, 97, 114, 46, 119, 101, 109]) 1024
      (compute_hash ((getOk (makeBnk true nmOut wemsW [lineSfxFoo, lineBgmBar]) emptyBnkOutput).bnkName ++ sufBgmMix)) ∈
      (getOk (makeBnk true nmOut wemsW [lineSfxFoo, lineBgmBar]) emptyBnkOutput).mixerSection ∧
    (∃ pre post,
      (getOk (makeBnk true nmOut wemsW [lineSfxFoo, lineBgmBar]) emptyBnkOutput).eventSection = pre ++
        [HircObj.actionStop1 (compute_hash ([98, 97, 114, 46, 119, 101, 109] ++ sufStop1)),
          HircObj.actionPlay (compute_hash ([98, 97, 114, 46, 119, 101, 109] ++ sufPlay))
            (compute_hash ([98, 97, 114, 46, 119, 101, 109] ++ sufSound))
            (compute_hash (getOk (makeBnk true nmOut wemsW [lineSfxFoo, lineBgmBar]) emptyBnkOutput).bnkName),
          HircObj.actionStop2 (compute_hash ([98, 97, 114, 46, 119, 101, 109] ++ sufStop2)),
          HircObj.eventBgm (compute_hash ([98, 97, 114, 46, 119, 101, 109] ++ sufPlayEvent))
            (compute_hash ([98, 97, 114, 46, 119, 101, 109] ++ sufStop1))
            (compute_hash ([98, 97, 114, 46, 119, 101, 109] ++ sufPlay))
            (compute_hash ([98, 97, 114, 46, 119, 101, 109] ++ sufStop2))] ++ post) :=
  C9_exclude_bgm nmOut wemsW [lineSfxFoo, lineBgmBar]
    (getOk (makeBnk true nmOut wemsW [lineSfxFoo, lineBgmBar]) emptyBnkOutput)
    [98, 97, 114, 46, 119, 101, 109] rfl (by decide) (by decide)

end MakeBnk
